import Mathlib

/-- Splits a character list at the first occurrence of a character, models strings.Cut. -/
def cutList (c : Char) : List Char → Option (List Char × List Char)
  | [] => none
  | x :: xs =>
    if x = c then some ([], xs)
    else (cutList c xs).map (fun p => (x :: p.1, p.2))

/-- Splits a string at the first occurrence of a character, models strings.Cut. -/
def cutString (c : Char) (s : String) : Option (String × String) :=
  (cutList c s.data).map (fun p => (String.mk p.1, String.mk p.2))

/-- The part of a string before the first occurrence of a character
(the whole string when the character does not occur); models the
before-component of strings.Cut. -/
def cutBefore (c : Char) (s : String) : String :=
  match cutString c s with
  | some p => p.1
  | none => s

/-- Whether a string contains a character, models strings.Contains for the
single-character needles used by the code. -/
def containsChar (c : Char) (s : String) : Bool :=
  s.data.any (fun x => x = c)

/-- Concatenation of a list of strings. -/
def strConcat : List String → String
  | [] => ""
  | s :: rest => s ++ strConcat rest

/-- Joins a list of strings with a separator, models strings.Join. -/
def strIntercalate (sep : String) : List String → String
  | [] => ""
  | [s] => s
  | s :: t :: rest => s ++ sep ++ strIntercalate sep (t :: rest)

/-- Lookup in an association list, models Go map indexing. -/
def lookupA {α : Type} : List (String × α) → String → Option α
  | [], _ => none
  | (k₀, v) :: rest, k => if k₀ = k then some v else lookupA rest k

/-- Update-or-append in an association list, models Go map assignment. -/
def insertA {α : Type} : List (String × α) → String → α → List (String × α)
  | [], k, v => [(k, v)]
  | (k₀, v₀) :: rest, k, v =>
    if k₀ = k then (k, v) :: rest else (k₀, v₀) :: insertA rest k v

/-- Boolean test for a successful Except result. -/
def isOkB {α : Type} : Except String α → Bool
  | Except.ok _ => true
  | Except.error _ => false

/-- The error carried by a failed Except result, none on success. -/
def exceptErrOpt {α : Type} : Except String α → Option String
  | Except.ok _ => none
  | Except.error e => some e

/-- First some-value produced by a function over a list. -/
def firstSomeStr {α : Type} (f : α → Option String) : List α → Option String
  | [] => none
  | x :: xs =>
    match f x with
    | some e => some e
    | none => firstSomeStr f xs

/-! ## Lexicographic string order used for sorted host traversal -/

/-- Codepoint-lexicographic comparison on character lists. -/
def listCharLeB : List Char → List Char → Bool
  | [], _ => true
  | _ :: _, [] => false
  | a :: as, b :: bs =>
    if a.toNat = b.toNat then listCharLeB as bs
    else decide (a.toNat < b.toNat)

/-- Codepoint-lexicographic comparison on strings. -/
def strLeB (a b : String) : Bool := listCharLeB a.data b.data

/-- Insert a string into a (sorted) list keeping the order. -/
def insertHost (x : String) : List String → List String
  | [] => [x]
  | y :: ys => if strLeB x y then x :: y :: ys else y :: insertHost x ys

/-- Insertion sort on strings. -/
def sortStrings : List String → List String
  | [] => []
  | x :: xs => insertHost x (sortStrings xs)

/-! ## Data model

Shallow embedding of the gomod generator data model.  The struct layouts are
taken from the fields the provided source code reads and the test files
construct (GomodRequire, GomodReplace, GomodEdits, GeneratorGomod with
Edits/Paths/Auth, SourceGenerator with Gomod/Subpath, GomodGitAuth with
SSH/Token/Header). -/

/-- A gomod require directive: pin a required module version. -/
structure GomodRequire where
  Module : String
  Version : String
  deriving DecidableEq

/-- A gomod replace directive: redirect one module to another. -/
structure GomodReplace where
  Original : String
  Update : String
  deriving DecidableEq

/-- The ordered edit directive lists of one gomod generator. -/
structure GomodEdits where
  Replace : List GomodReplace
  Require : List GomodRequire
  deriving DecidableEq

/-- SSH credential configuration for one host: a key reference with an
optional username (spec section 3). -/
structure GomodGitAuthSSH where
  Username : String
  ID : String
  deriving DecidableEq

/-- Per-host credential configuration: one of an SSH key reference, a bearer
token secret name, or a custom header secret name. -/
structure GomodGitAuth where
  SSH : Option GomodGitAuthSSH
  Token : String
  Header : String
  deriving DecidableEq

/-- Gomod generator configuration: edit set, module subdirectory paths and
host-keyed credential configuration. -/
structure GeneratorGomod where
  Edits : Option GomodEdits
  Paths : List String
  Auth : List (String × GomodGitAuth)
  deriving DecidableEq

/-- A source generator carrying an optional gomod generator and the root
offset of the generator within the source tree. -/
structure SourceGenerator where
  Gomod : Option GeneratorGomod
  Subpath : String
  deriving DecidableEq

/-- Modelled from the spec (section 6): SortMapKeys, whose Go definition is
not in the provided sources, returns the keys of a host-keyed mapping in
deterministically sorted order. -/
def SortMapKeys {α : Type} (m : List (String × α)) : List String :=
  sortStrings (m.map Prod.fst)

/-- Go map indexing into the Auth mapping; a missing key yields the zero
value, as in Go. -/
def lookupAuth (auth : List (String × GomodGitAuth)) (host : String) : GomodGitAuth :=
  (lookupA auth host).getD ⟨none, "", ""⟩

/-! ## Constants (source part_001, const block) -/

def gomodPatchFilename : String := "gomod.patch"

def gomodFilename : String := "go.mod"

def gosumFilename : String := "go.sum"

def defaultGitUsername : String := "git"

/-- The derived internal patch-source name, fmt.Sprintf of the fixed prefix
and the owning source name. -/
def gomodPatchSourceName (sourceName : String) : String :=
  "__gomod_patch_" ++ sourceName

/-! ## Edit directive rendering (modelled)

The Go definitions of goModEditArg for GomodRequire and GomodReplace are not
in the provided sources (only their tests and callers are). -/

/-- The identity of a require directive, used to wrap its errors. -/
def GomodRequire.ident (r : GomodRequire) : String :=
  "require " ++ r.Module ++ ":" ++ r.Version

/-- The identity of a replace directive, used to wrap its errors. -/
def GomodReplace.ident (r : GomodReplace) : String :=
  "replace " ++ r.Original ++ ":" ++ r.Update

/-- Modelled from the spec (section 4.1) and the tests
TestGomodRequireGoModEditArg: renders the single go mod edit argument of a
require directive, the Version verbatim when the module is non-empty and the
version contains an @ pin, an error wrapped with the directive identity
otherwise. -/
def GomodRequire.goModEditArg (r : GomodRequire) : Except String String :=
  if r.Module = "" then
    Except.error (GomodRequire.ident r ++ ": module must be non-empty")
  else if containsChar '@' r.Version then Except.ok r.Version
  else Except.error (GomodRequire.ident r ++ ": version must include @version")

/-- Modelled from the spec (section 4.1) and the tests
TestGomodReplaceGoModEditArg: renders the single go mod edit argument of a
replace directive, old=new when both sides are non-empty, an error wrapped
with the directive identity otherwise. -/
def GomodReplace.goModEditArg (r : GomodReplace) : Except String String :=
  if r.Original = "" ∨ r.Update = "" then
    Except.error (GomodReplace.ident r ++ ": old and new must be non-empty")
  else Except.ok (r.Original ++ "=" ++ r.Update)

/-! ## Edit command compiler (source part_001, gomodEditCommand) -/

/-- The replace-directive loop of gomodEditCommand: renders each directive in
declared order, prefixes the flag, stops at the first error. -/
def renderReplaceArgs : List GomodReplace → Except String (List String)
  | [] => Except.ok []
  | r :: rest =>
    match GomodReplace.goModEditArg r with
    | Except.error e => Except.error e
    | Except.ok arg =>
      match renderReplaceArgs rest with
      | Except.error e => Except.error e
      | Except.ok args => Except.ok (("-replace=" ++ arg) :: args)

/-- The require-directive loop of gomodEditCommand. -/
def renderRequireArgs : List GomodRequire → Except String (List String)
  | [] => Except.ok []
  | r :: rest =>
    match GomodRequire.goModEditArg r with
    | Except.error e => Except.error e
    | Except.ok arg =>
      match renderRequireArgs rest with
      | Except.error e => Except.error e
      | Except.ok args => Except.ok (("-require=" ++ arg) :: args)

/-- gomodEditCommand from the source: builds the composite go mod edit
command line, replace flags then require flags, empty string for a nil
generator, nil edit set or no arguments. -/
def gomodEditCommand : Option GeneratorGomod → Except String String
  | none => Except.ok ""
  | some g =>
    match g.Edits with
    | none => Except.ok ""
    | some edits =>
      match renderReplaceArgs edits.Replace with
      | Except.error e => Except.error e
      | Except.ok replaceArgs =>
        match renderRequireArgs edits.Require with
        | Except.error e => Except.error e
        | Except.ok requireArgs =>
          let args := replaceArgs ++ requireArgs
          if args = [] then Except.ok ""
          else Except.ok ("go mod edit " ++ strIntercalate " " args)

/-- The first rendering error of an edit set in processing order, stated from
the claim: replace directives in declared order, then require directives. -/
def firstRenderErr (edits : GomodEdits) : Option String :=
  match firstSomeStr (fun r => exceptErrOpt (GomodReplace.goModEditArg r)) edits.Replace with
  | some e => some e
  | none => firstSomeStr (fun r => exceptErrOpt (GomodRequire.goModEditArg r)) edits.Require

/-! ## Textual decoding (modelled)

The Go UnmarshalJSON/UnmarshalYAML methods of GomodRequire and GomodReplace
are not in the provided sources; only their test tables are
(TestGomodRequireUnmarshal, TestGomodReplaceUnmarshal).  Both JSON and YAML
inputs decode from the same two shapes: a compact scalar string or a mapping
with named string fields, which TextValue captures. -/

/-- The shape of a decoded JSON or YAML input value for a directive. -/
inductive TextValue where
  | str (s : String) : TextValue
  | map (fields : List (String × String)) : TextValue
  deriving DecidableEq

/-- Field validation of a require directive, shared by decode and validate:
non-empty module and a version containing an @ pin. -/
def GomodRequire.checkFields (r : GomodRequire) : Except String GomodRequire :=
  if r.Module = "" then Except.error "gomod require: module must be non-empty"
  else if containsChar '@' r.Version then Except.ok r
  else Except.error "gomod require: version must include @version"

/-- Modelled from the spec (section 3) and the test table
TestGomodRequireUnmarshal in the sources: decodes a require directive from a
compact module:version string (split on the first colon) or a mapping with
module and version fields, and rejects any value violating the field
invariants at decode time, as the test table demands. -/
def GomodRequire.decode : TextValue → Except String GomodRequire
  | TextValue.str s =>
    match cutString ':' s with
    | none => Except.error "gomod require: expected module:version"
    | some (m, v) => GomodRequire.checkFields ⟨m, v⟩
  | TextValue.map fields =>
    match lookupA fields "module", lookupA fields "version" with
    | some m, some v => GomodRequire.checkFields ⟨m, v⟩
    | _, _ => Except.error "gomod require: missing module or version"

/-- Field validation of a replace directive, shared by decode and validate:
both sides non-empty. -/
def GomodReplace.checkFields (r : GomodReplace) : Except String GomodReplace :=
  if r.Original = "" then Except.error "gomod replace: old must be non-empty"
  else if r.Update = "" then Except.error "gomod replace: new must be non-empty"
  else Except.ok r

/-- Modelled from the spec (section 3) and the test table
TestGomodReplaceUnmarshal in the sources: decodes a replace directive from a
compact old:new string or a mapping with old and new fields, rejecting
field-invariant violations at decode time. -/
def GomodReplace.decode : TextValue → Except String GomodReplace
  | TextValue.str s =>
    match cutString ':' s with
    | none => Except.error "gomod replace: expected old:new"
    | some (o, n) => GomodReplace.checkFields ⟨o, n⟩
  | TextValue.map fields =>
    match lookupA fields "old", lookupA fields "new" with
    | some o, some n => GomodReplace.checkFields ⟨o, n⟩
    | _, _ => Except.error "gomod replace: missing old or new"

/-- A decoder written from the words of claim C5 alone, for comparison with
the test tables: it rejects only a compact string lacking a colon and a
mapping missing a named field, and defers every other violation to
validation. -/
def GomodRequire.decodeClaim : TextValue → Except String GomodRequire
  | TextValue.str s =>
    match cutString ':' s with
    | none => Except.error "gomod require: expected module:version"
    | some (m, v) => Except.ok ⟨m, v⟩
  | TextValue.map fields =>
    match lookupA fields "module", lookupA fields "version" with
    | some m, some v => Except.ok ⟨m, v⟩
    | _, _ => Except.error "gomod require: missing module or version"

/-- One row of an unmarshal test table from the sources: the input shape,
whether an error is expected, and the two expected field values on success. -/
structure UnmarshalCase where
  input : TextValue
  expectErr : Bool
  expectedA : String
  expectedB : String
  deriving DecidableEq

/-- The rows of TestGomodRequireUnmarshal (source part_001), with the YAML
and JSON textual inputs reduced to their decoded shapes. -/
def requireUnmarshalTests : List UnmarshalCase :=
  [⟨TextValue.str "github.com/stretchr/testify:github.com/stretchr/testify@v1.8.0", false,
      "github.com/stretchr/testify", "github.com/stretchr/testify@v1.8.0"⟩,
   ⟨TextValue.map [("module", "github.com/cpuguy83/tar2go"), ("version", "github.com/cpuguy83/tar2go@v0.3.1")], false,
      "github.com/cpuguy83/tar2go", "github.com/cpuguy83/tar2go@v0.3.1"⟩,
   ⟨TextValue.str "github.com/stretchr/testify:github.com/stretchr/testify@v1.8.0", false,
      "github.com/stretchr/testify", "github.com/stretchr/testify@v1.8.0"⟩,
   ⟨TextValue.map [("module", "github.com/cpuguy83/tar2go"), ("version", "github.com/cpuguy83/tar2go@v0.3.1")], false,
      "github.com/cpuguy83/tar2go", "github.com/cpuguy83/tar2go@v0.3.1"⟩,
   ⟨TextValue.str "github.com/stretchr/testify", true, "", ""⟩,
   ⟨TextValue.str "github.com/stretchr/testify:v1.8.0", true, "", ""⟩,
   ⟨TextValue.map [("module", "github.com/cpuguy83/tar2go")], true, "", ""⟩,
   ⟨TextValue.map [("module", "github.com/cpuguy83/tar2go"), ("version", "v0.3.1")], true, "", ""⟩]

/-- The rows of TestGomodReplaceUnmarshal (source part_001). -/
def replaceUnmarshalTests : List UnmarshalCase :=
  [⟨TextValue.str "github.com/stretchr/testify:github.com/stretchr/testify@v1.8.0", false,
      "github.com/stretchr/testify", "github.com/stretchr/testify@v1.8.0"⟩,
   ⟨TextValue.map [("old", "github.com/cpuguy83/tar2go"), ("new", "github.com/cpuguy83/tar2go@v0.3.1")], false,
      "github.com/cpuguy83/tar2go", "github.com/cpuguy83/tar2go@v0.3.1"⟩,
   ⟨TextValue.str "github.com/stretchr/testify:github.com/stretchr/testify@v1.8.0", false,
      "github.com/stretchr/testify", "github.com/stretchr/testify@v1.8.0"⟩,
   ⟨TextValue.map [("old", "github.com/cpuguy83/tar2go"), ("new", "github.com/cpuguy83/tar2go@v0.3.1")], false,
      "github.com/cpuguy83/tar2go", "github.com/cpuguy83/tar2go@v0.3.1"⟩,
   ⟨TextValue.str "github.com/stretchr/testify", true, "", ""⟩,
   ⟨TextValue.map [("old", "github.com/cpuguy83/tar2go")], true, "", ""⟩,
   ⟨TextValue.map [("old", ""), ("new", "github.com/cpuguy83/tar2go@v0.3.1")], true, "", ""⟩]

/-- Whether the modelled require decoder agrees with one test row. -/
def requireDecodeAgrees (t : UnmarshalCase) : Bool :=
  match GomodRequire.decode t.input with
  | Except.error _ => t.expectErr
  | Except.ok r => !t.expectErr && decide (r.Module = t.expectedA) && decide (r.Version = t.expectedB)

/-- Whether the modelled replace decoder agrees with one test row. -/
def replaceDecodeAgrees (t : UnmarshalCase) : Bool :=
  match GomodReplace.decode t.input with
  | Except.error _ => t.expectErr
  | Except.ok r => !t.expectErr && decide (r.Original = t.expectedA) && decide (r.Update = t.expectedB)

/-! ## Validation (modelled)

The Go SourceGenerator.Validate definition is not in the provided sources;
only its test table TestSourceGeneratorValidateGomodEdits is.  Modelled from
the spec (section 4.1): validation checks every require and every replace
directive and aggregates all violations into one reported error. -/

/-- The validation violations of one require directive. -/
def GomodRequire.validationMsgs (r : GomodRequire) : List String :=
  (if r.Module = "" then ["gomod require module must be non-empty"] else []) ++
    (if containsChar '@' r.Version then [] else ["gomod require version must include @version"])

/-- The validation violations of one replace directive. -/
def GomodReplace.validationMsgs (r : GomodReplace) : List String :=
  (if r.Original = "" then ["gomod replace old must be non-empty"] else []) ++
    (if r.Update = "" then ["gomod replace new must be non-empty"] else [])

/-- Concatenation of the violation lists of every element. -/
def concatMsgs {α : Type} (f : α → List String) : List α → List String
  | [] => []
  | x :: xs => f x ++ concatMsgs f xs

/-- All violations of an edit set, every require and every replace checked. -/
def GomodEdits.validationMsgs (e : GomodEdits) : List String :=
  concatMsgs GomodRequire.validationMsgs e.Require ++
    concatMsgs GomodReplace.validationMsgs e.Replace

/-- Joins aggregated violation messages into the one reported error text. -/
def joinMsgs : List String → String
  | [] => ""
  | [m] => m
  | m :: t :: rest => m ++ "; " ++ joinMsgs (t :: rest)

/-- Modelled from the spec (section 4.1): Validate on a source generator
aggregates every violation of the gomod edit set into one reported error,
none when the edit set is valid or absent. -/
def SourceGenerator.Validate (g : SourceGenerator) : Option String :=
  match g.Gomod with
  | none => none
  | some gg =>
    match gg.Edits with
    | none => none
    | some e =>
      match GomodEdits.validationMsgs e with
      | [] => none
      | m :: rest => some (joinMsgs (m :: rest))

/-! ## Path handling (Unix path/filepath semantics used by the builder) -/

/-- Splits a character list on a separator character, keeping empty
segments. -/
def splitChar (c : Char) : List Char → List (List Char)
  | [] => [[]]
  | x :: xs =>
    let r := splitChar c xs
    if x = c then [] :: r
    else
      match r with
      | [] => [[x]]
      | h :: t => (x :: h) :: t

/-- The component loop of filepath.Clean: drops empty and dot components,
resolves dotdot against the stack, keeps leading dotdots of relative
paths. -/
def cleanComponentsAux (rooted : Bool) : List String → List String → List String
  | acc, [] => acc.reverse
  | acc, c :: rest =>
    if c = "" ∨ c = "." then cleanComponentsAux rooted acc rest
    else if c = ".." then
      match acc with
      | [] =>
        if rooted then cleanComponentsAux rooted [] rest
        else cleanComponentsAux rooted [".."] rest
      | a :: as =>
        if a = ".." then cleanComponentsAux rooted (c :: a :: as) rest
        else cleanComponentsAux rooted as rest
    else cleanComponentsAux rooted (c :: acc) rest

/-- filepath.Clean for slash-separated paths. -/
def filepathClean (p : String) : String :=
  if p = "" then "."
  else
    let rooted : Bool :=
      match p.data with
      | x :: _ => x = '/'
      | [] => false
    let comps := cleanComponentsAux rooted [] ((splitChar '/' p.data).map String.mk)
    let out := strIntercalate "/" comps
    if rooted then "/" ++ out
    else if out = "" then "." else out

/-- filepath.Join: drops empty elements, joins with a slash and cleans;
empty when every element is empty. -/
def filepathJoin (elems : List String) : String :=
  match elems.filter (fun s => decide (s ≠ "")) with
  | [] => ""
  | ne => filepathClean (strIntercalate "/" ne)

/-! ## Git auth section of the patch script (source part_001,
buildGomodPatchScript lines 486 to 524) -/

/-- The format string of the SSH insteadOf rewrite directive emitted per
host. -/
def sshRewriteLine (username host gpHost : String) : String :=
  "git config --global url.\"ssh://" ++ username ++ "@" ++ host ++
    "/\".insteadOf https://" ++ gpHost ++ "/\n"

/-- The format string of the credential-helper registration emitted per
host. -/
def credHelperLine (host kind : String) : String :=
  "git config --global credential.\"https://" ++ host ++
    ".helper\" \"/usr/local/bin/frontend credential-helper --kind=" ++ kind ++ "\"\n"

/-- fmt.Sprintf with a %q verb as applied to the host list: wraps in double
quotes, escaping quote and backslash characters (the only escapes the host
strings used here can need). -/
def goQuote (s : String) : String :=
  String.mk ('"' :: s.data.foldr (fun c acc =>
    (if c = '\"' ∨ c = '\\' then ['\\', c] else [c]) ++ acc) ['\"'])

/-- The body of the sorted-host loop of buildGomodPatchScript: appends the
git config text for one host and collects its port-stripped name. -/
def gomodAuthStep (auth : List (String × GomodGitAuth)) (acc : String × List String)
    (host : String) : String × List String :=
  let a := lookupAuth auth host
  let gpHost := cutBefore ':' host
  let goPrivateHosts := acc.2 ++ [gpHost]
  match a.SSH with
  | some sshConfig =>
    let username := if sshConfig.Username = "" then defaultGitUsername else sshConfig.Username
    (acc.1 ++ sshRewriteLine username host gpHost, goPrivateHosts)
  | none =>
    let kind := if a.Token ≠ "" then "token" else if a.Header ≠ "" then "header" else ""
    if kind ≠ "" then (acc.1 ++ credHelperLine host kind, goPrivateHosts)
    else (acc.1, goPrivateHosts)

/-- The git config / GOPRIVATE / GOINSECURE triple built by
buildGomodPatchScript from the Auth mapping: hosts are visited in sorted key
order; both environment values are the quoted comma-join of the collected
host names. -/
def buildAuthSection (auth : List (String × GomodGitAuth)) : String × String × String :=
  let sortedHosts := SortMapKeys auth
  if sortedHosts.isEmpty then ("", "", "")
  else
    let r := sortedHosts.foldl (gomodAuthStep auth) ("", [])
    let joined := strIntercalate "," r.2
    (r.1, goQuote joined, goQuote joined)

/-- The git config text emitted for a single host, written from the words of
claim C7: an SSH insteadOf rewrite with the username defaulting to git when
SSH credentials are configured, otherwise a credential-helper registration
naming the kind token or header, nothing for a host with neither. -/
def hostAuthLine (auth : List (String × GomodGitAuth)) (host : String) : String :=
  let a := lookupAuth auth host
  match a.SSH with
  | some sshConfig =>
    sshRewriteLine (if sshConfig.Username = "" then defaultGitUsername else sshConfig.Username)
      host (cutBefore ':' host)
  | none =>
    if a.Token ≠ "" then credHelperLine host "token"
    else if a.Header ≠ "" then credHelperLine host "header"
    else ""

/-- Whether a host entry carries any credential configuration, written from
the words of claims C7 to C9. -/
def gomodAuthCarriesCreds (a : GomodGitAuth) : Bool :=
  a.SSH.isSome || decide (a.Token ≠ "") || decide (a.Header ≠ "")

/-! ## Script template rendering (source scripts/gomod-patch.sh)

The text/template actions of the embedded script are rendered here with the
leading-whitespace trim semantics of the template markers. -/

/-- Per-module data interpolated into the script template. -/
structure moduleInfo where
  RelModulePath : String
  ModuleDir : String
  GoModPath : String
  GoSumPath : String
  RelGoModPath : String
  RelGoSumPath : String
  deriving DecidableEq

/-- The template data of the gomod patch script. -/
structure scriptTemplateData where
  PatchPath : String
  EditCmd : String
  GitConfig : String
  GoPrivate : String
  GoInsecure : String
  GoModFilename : String
  GoSumFilename : String
  Modules : List moduleInfo
  deriving DecidableEq

/-- The conditional GOPRIVATE/GOINSECURE export section of the script
template, present exactly when the GoPrivate value is non-empty. -/
def gomodScriptAuthExports (gp gi : String) : String :=
  if gp ≠ "" then "\nexport GOPRIVATE=" ++ gp ++ "\nexport GOINSECURE=" ++ gi
  else ""

/-- One iteration of the range over modules in the script template. -/
def moduleBlock (d : scriptTemplateData) (m : moduleInfo) : String :=
  "\n# Process " ++ m.RelModulePath ++
    "\nif [ -f \"" ++ m.GoModPath ++ "\" ]; then\n  tmpdir=$(mktemp -d)\n  cp \"" ++
    m.GoModPath ++ "\" \"$tmpdir/" ++ d.GoModFilename ++
    "\"\n  if [ -f \"" ++ m.GoSumPath ++ "\" ]; then cp \"" ++ m.GoSumPath ++
    "\" \"$tmpdir/" ++ d.GoSumFilename ++ "\"; else : > \"$tmpdir/" ++ d.GoSumFilename ++
    "\"; fi\n  cd \"" ++ m.ModuleDir ++ "\"\n  " ++ d.EditCmd ++
    "\n  go mod tidy\n  cd -\n  if [ ! -f \"" ++ m.GoSumPath ++ "\" ]; then touch \"" ++
    m.GoSumPath ++ "\"; fi\n\n  # Capture diffs and append to patch file\n  diff -u --label a/" ++
    m.RelGoModPath ++ " --label b/" ++ m.RelGoModPath ++ " \"$tmpdir/" ++ d.GoModFilename ++
    "\" \"" ++ m.GoModPath ++ "\" >> \"" ++ d.PatchPath ++
    "\" || true\n  if [ -f \"" ++ m.GoSumPath ++ "\" ] || [ -s \"$tmpdir/" ++ d.GoSumFilename ++
    "\" ]; then\n    diff -u --label a/" ++ m.RelGoSumPath ++ " --label b/" ++ m.RelGoSumPath ++
    " \"$tmpdir/" ++ d.GoSumFilename ++ "\" \"" ++ m.GoSumPath ++ "\" >> \"" ++ d.PatchPath ++
    "\" || true\n  fi\n  rm -rf \"$tmpdir\"\nfi"

/-- The full rendering of the gomod patch script template. -/
def renderGomodPatchScript (d : scriptTemplateData) : String :=
  "#!/bin/sh\nset -e\n\n# Ensure Go is in PATH\n# On older Ubuntu versions, Go is installed in versioned directories like /usr/lib/go-1.18/bin\nif ! command -v go >/dev/null 2>&1; then\n  for godir in /usr/lib/go-*/bin; do\n    if [ -d \"$godir\" ] && [ -x \"$godir/go\" ]; then\n      export PATH=\"$godir:$PATH\"\n      break\n    fi\n  done\nfi\n\nexport GOMODCACHE=\"$\x7bTMP_GOMODCACHE\x7d\"\n: > \"" ++
    d.PatchPath ++ "\"\necho \x27Generating gomod patch with edits: " ++ d.EditCmd ++
    "\x27\necho \x27\x27" ++
    (if d.GitConfig ≠ "" then "\n# Setup git authentication\n" ++ d.GitConfig else "") ++
    gomodScriptAuthExports d.GoPrivate d.GoInsecure ++
    strConcat (d.Modules.map (moduleBlock d)) ++
    "\n\necho \x27Gomod patch generation complete\x27\nif [ -s \"" ++ d.PatchPath ++
    "\" ]; then\n  echo \x27Patch file created with changes\x27\n  wc -l \"" ++ d.PatchPath ++
    "\"\nelse\n  echo \x27No changes detected - patch file is empty\x27\nfi\n"

/-- buildGomodPatchScript from the source: renders the shell script applying
the gomod edits for every module path and capturing the diffs.  The template
parse and execute steps of the Go code cannot fail on the fixed embedded
template, so the result is total here. -/
def buildGomodPatchScript (editCmd : String) (paths : List String) (gen : SourceGenerator)
    (sourceName patchOutputDir : String) : String :=
  let workDir := "/work/src"
  let patchPath := filepathJoin [patchOutputDir, gomodPatchFilename]
  let joinedWorkDir := filepathJoin [workDir, sourceName, gen.Subpath]
  let auth :=
    match gen.Gomod with
    | some g => g.Auth
    | none => []
  let section3 := buildAuthSection auth
  let modules := paths.map (fun relPath =>
    let moduleDir := filepathClean (filepathJoin [joinedWorkDir, relPath])
    let relModulePath₀ := filepathClean (filepathJoin [gen.Subpath, relPath])
    let relModulePath := if relModulePath₀ = "." then "" else relModulePath₀
    ({ RelModulePath := relModulePath
       ModuleDir := moduleDir
       GoModPath := filepathJoin [moduleDir, gomodFilename]
       GoSumPath := filepathJoin [moduleDir, gosumFilename]
       RelGoModPath := filepathJoin [relModulePath, gomodFilename]
       RelGoSumPath := filepathJoin [relModulePath, gosumFilename] } : moduleInfo))
  renderGomodPatchScript
    { PatchPath := patchPath
      EditCmd := editCmd
      GitConfig := section3.1
      GoPrivate := section3.2.1
      GoInsecure := section3.2.2
      GoModFilename := gomodFilename
      GoSumFilename := gosumFilename
      Modules := modules }

/-! ## Build-graph states and the owning specification

LLB states are lazily evaluated descriptions (spec section 6); the inductive
mirrors the constructors the gomod preprocessing code applies.  The run
node carries the worker state, the mounted script state, the mounted base
source state, the patch output mount directory and the progress label; the
cache mount, environment variables, credential-helper option and secret
options attached to the run are opaque executor options (spec section 6)
and are not part of the state shape. -/

inductive LLBState where
  | scratch : LLBState
  | mkfile (base : LLBState) (path : String) (mode : Nat) (contents : String) : LLBState
  | mkdir (base : LLBState) (path : String) (mode : Nat) (parents : Bool) : LLBState
  | copy (base : LLBState) (src : LLBState) (srcPath : String) (destPath : String) : LLBState
  | run (worker : LLBState) (script : LLBState) (base : LLBState)
      (outputDir : String) (label : String) : LLBState
  deriving DecidableEq

/-- A patch reference registered on a source (PatchSpec in the source). -/
structure PatchSpec where
  Source : String
  Path : String
  Strip : Option Nat
  deriving DecidableEq

/-- A named source of the build specification: its generators and, for the
internal sources created by preprocessing, the wrapped LLB state
(newSourceLLB in source_llb.go). -/
structure Source where
  Generate : List (Option SourceGenerator)
  LLB : Option LLBState
  deriving DecidableEq

/-- The parts of the build specification the gomod preprocessing reads and
mutates: the named sources and the per-source patch lists. -/
structure Spec where
  Sources : List (String × Source)
  Patches : List (String × List PatchSpec)
  deriving DecidableEq

/-- Modelled from the spec (section 4.5): gomodSources, whose Go definition
is not in the provided sources, collects every source declaring at least one
generator with a gomod configuration. -/
def Spec.gomodSources (s : Spec) : List (String × Source) :=
  s.Sources.filter (fun p =>
    p.2.Generate.any (fun og => (og.bind SourceGenerator.Gomod).isSome))

/-- generateGomodPatchStateForSource from the source: compiles the edit
command, returns no state when it is empty, otherwise renders the script,
runs it on the worker against the base state and relocates the captured
patch file into the fixed artifact shape
/patch-source-name/gomod.patch.  The credential-helper and secret run
options of the Go code are opaque executor options and carried nowhere
here. -/
def generateGomodPatchStateForSource (sourceName : String) (gen : SourceGenerator)
    (baseState worker : LLBState) : Except String (Option LLBState) :=
  match gomodEditCommand gen.Gomod with
  | Except.error e => Except.error e
  | Except.ok editCmd =>
    if editCmd = "" then Except.ok none
    else
      let paths :=
        match gen.Gomod with
        | some g => if g.Paths.isEmpty then ["."] else g.Paths
        | none => ["."]
      let patchOutputDir := "/tmp/patch-work"
      let scriptContent := buildGomodPatchScript editCmd paths gen sourceName patchOutputDir
      let scriptState := LLBState.mkfile LLBState.scratch "/gomod-patch.sh" 0o755 scriptContent
      let patchMount := LLBState.run worker scriptState baseState patchOutputDir
        ("Generate gomod patch for source: " ++ sourceName)
      let nm := gomodPatchSourceName sourceName
      let patchSt := LLBState.copy
        (LLBState.mkdir LLBState.scratch (filepathJoin ["/", nm]) 0o755 true)
        patchMount ("/" ++ gomodPatchFilename) (filepathJoin ["/", nm, gomodPatchFilename])
      Except.ok (some patchSt)

/-- The per-generator body of the preprocessGomodEdits loop: skips nil
generators and generators without a gomod configuration, builds the patch
state, and on a non-nil state registers the internal patch source and
appends the patch reference with strip one. -/
def processGen (worker : LLBState) (sourceName : String) (baseState : LLBState)
    (s : Spec) : Option SourceGenerator → Except String Spec
  | none => Except.ok s
  | some gen =>
    match gen.Gomod with
    | none => Except.ok s
    | some _ =>
      match generateGomodPatchStateForSource sourceName gen baseState worker with
      | Except.error e =>
        Except.error ("failed to generate gomod patch state for source " ++ sourceName ++ ": " ++ e)
      | Except.ok none => Except.ok s
      | Except.ok (some patchSt) =>
        let patchSourceName := gomodPatchSourceName sourceName
        let withSrc : Spec :=
          { s with Sources := insertA s.Sources patchSourceName ⟨[], some patchSt⟩ }
        let prev := (lookupA withSrc.Patches sourceName).getD []
        Except.ok { withSrc with
          Patches := insertA withSrc.Patches sourceName
            (prev ++ [⟨patchSourceName, gomodPatchFilename, some 1⟩]) }

/-- The generator loop of preprocessGomodEdits over one source. -/
def processGens (worker : LLBState) (sourceName : String) (baseState : LLBState) :
    Spec → List (Option SourceGenerator) → Except String Spec
  | s, [] => Except.ok s
  | s, og :: rest =>
    match processGen worker sourceName baseState s og with
    | Except.error e => Except.error e
    | Except.ok s2 => processGens worker sourceName baseState s2 rest

/-- The source loop of preprocessGomodEdits: sources missing from the
patched base sources are skipped. -/
def processSources (worker : LLBState) (baseSources : List (String × LLBState)) :
    Spec → List (String × Source) → Except String Spec
  | s, [] => Except.ok s
  | s, (sourceName, src) :: rest =>
    match lookupA baseSources sourceName with
    | none => processSources worker baseSources s rest
    | some baseState =>
      match processGens worker sourceName baseState s src.Generate with
      | Except.error e => Except.error e
      | Except.ok s2 => processSources worker baseSources s2 rest

/-- preprocessGomodEdits from the source.  The patched base states of the
qualifying sources are produced by getPatchedSources, whose Go definition is
not in the provided sources (spec section 4.5: the source filesystem state
with prior non-gomod patches applied); they enter here as the baseSources
argument.  The credential-helper lookup of the Go code is an opaque external
collaborator and is not modelled. -/
def Spec.preprocessGomodEdits (s : Spec) (baseSources : List (String × LLBState))
    (worker : LLBState) : Except String Spec :=
  let gms := s.gomodSources
  if gms.isEmpty then Except.ok s
  else processSources worker baseSources s gms

/-- Preprocess from the source: runs the gomod edit preprocessing and wraps
its error. -/
def Spec.Preprocess (s : Spec) (baseSources : List (String × LLBState))
    (worker : LLBState) : Except String Spec :=
  match s.preprocessGomodEdits baseSources worker with
  | Except.error e => Except.error ("failed to preprocess gomod edits: " ++ e)
  | Except.ok s2 => Except.ok s2

/-! ## Empty edit sets -/

/-- Whether an optional generator carries no gomod edit directives at all. -/
def emptyGomodEditsB : Option SourceGenerator → Bool
  | none => true
  | some sg =>
    match sg.Gomod with
    | none => true
    | some gg =>
      match gg.Edits with
      | none => true
      | some e => e.Replace.isEmpty && e.Require.isEmpty

/-- Witness helper for C1: the generator of the end-to-end spec example. -/
def genExC1 : GeneratorGomod := ⟨some ⟨[], [⟨"example.com/a", "example.com/a@v1.2.0"⟩]⟩, [], []⟩

/-- Witness helper for C1: the patch state the example generator builds. -/
def stExC1 : LLBState :=
  match generateGomodPatchStateForSource "src1" ⟨some genExC1, ""⟩ LLBState.scratch LLBState.scratch with
  | Except.ok (some st) => st
  | _ => LLBState.scratch

/-- Witness helper for C10: the second generator, a replace directive. -/
def genExC10 : GeneratorGomod := ⟨some ⟨[⟨"example.com/old", "example.com/new@v1.0.0"⟩], []⟩, [], []⟩

/-- Witness helper for C10: the patch state built by the second generator. -/
def stExC10 : LLBState :=
  match generateGomodPatchStateForSource "src1" ⟨some genExC10, ""⟩ LLBState.scratch LLBState.scratch with
  | Except.ok (some st) => st
  | _ => LLBState.scratch

/-!
Verification of the gomod patch-generation subsystem of dalec.

This file gives a shallow embedding of the gomod preprocessing code
(preprocessGomodEdits, gomodEditCommand, buildGomodPatchScript,
generateGomodPatchStateForSource and the embedded shell script template
scripts/gomod-patch.sh) and proves the specified properties about it.

Go strings are Lean String values; Go maps are association lists
(List (String × key)) with Go map assignment modelled by update-or-append;
Go errors are the String error message, with fallible functions returning
Except String; buildkit LLB states are modelled by a small inductive of the
state constructors the code uses.  Functions whose Go definition is not part
of the provided sources are modelled from the spec and carry a doc comment
saying so.
-/

/-! ## String and list helpers (kernel-friendly replacements for library ops) -/

/-- The data of the concatenation of two strings is the concatenation of the data. -/
theorem string_data_append : ∀ (a b : String), (a ++ b).data = a.data ++ b.data
  | String.mk _, String.mk _ => rfl

/-- String concatenation is associative. -/
theorem string_append_assoc (a b c : String) : a ++ b ++ c = a ++ (b ++ c) := by
  cases a; cases b; cases c
  exact congrArg String.mk (List.append_assoc _ _ _)

/-- Appending the empty string on the right is the identity. -/
theorem string_append_empty (a : String) : a ++ "" = a := by
  cases a
  exact congrArg String.mk (List.append_nil _)

theorem lookupA_insertA_self {α : Type} (m : List (String × α)) (k : String) (v : α) :
    lookupA (insertA m k v) k = some v := by
  induction m with
  | nil => simp [insertA, lookupA]
  | cons p rest ih =>
    obtain ⟨k₀, v₀⟩ := p
    by_cases h : k₀ = k
    · simp [insertA, h, lookupA]
    · simp [insertA, h, lookupA, ih]

theorem insertA_insertA {α : Type} (m : List (String × α)) (k : String) (v w : α) :
    insertA (insertA m k v) k w = insertA m k w := by
  induction m with
  | nil => simp [insertA]
  | cons p rest ih =>
    obtain ⟨k₀, v₀⟩ := p
    by_cases h : k₀ = k
    · simp [insertA, h]
    · simp [insertA, h, ih]

theorem listCharLeB_total (a : List Char) : ∀ b, listCharLeB a b = true ∨ listCharLeB b a = true := by
  induction a with
  | nil => intro b; left; rfl
  | cons x xs ih =>
    intro b
    cases b with
    | nil => right; rfl
    | cons y ys =>
      by_cases h : x.toNat = y.toNat
      · have h2 : y.toNat = x.toNat := h.symm
        rcases ih ys with hl | hr
        · left; simp [listCharLeB, h, hl]
        · right; simp [listCharLeB, h2, hr]
      · rcases Nat.lt_or_ge x.toNat y.toNat with hlt | hge
        · left; simp [listCharLeB, h, hlt]
        · have hne : ¬ (y.toNat = x.toNat) := fun hh => h hh.symm
          have hlt2 : y.toNat < x.toNat := Nat.lt_of_le_of_ne hge (fun hh => h hh.symm)
          right; simp [listCharLeB, hne, hlt2]

theorem listCharLeB_trans (a : List Char) :
    ∀ b c, listCharLeB a b = true → listCharLeB b c = true → listCharLeB a c = true := by
  induction a with
  | nil => intro b c _ _; rfl
  | cons x xs ih =>
    intro b c hab hbc
    cases b with
    | nil => simp [listCharLeB] at hab
    | cons y ys =>
      cases c with
      | nil => simp [listCharLeB] at hbc
      | cons z zs =>
        by_cases hxy : x.toNat = y.toNat <;> by_cases hyz : y.toNat = z.toNat
        · have hxz : x.toNat = z.toNat := hxy.trans hyz
          simp only [listCharLeB, hxy, if_pos] at hab
          simp only [listCharLeB, hyz, if_pos] at hbc
          simp [listCharLeB, hxz, ih ys zs hab hbc]
        · simp only [listCharLeB, hyz, if_neg, if_pos, hxy] at hbc
          have hlt : y.toNat < z.toNat := by
            by_contra hc
            simp [hyz, hc] at hbc
          have hxz : x.toNat < z.toNat := by omega
          have hxzne : ¬ (x.toNat = z.toNat) := by omega
          simp [listCharLeB, hxzne, hxz]
        · simp only [listCharLeB, hxy, if_neg] at hab
          have hlt : x.toNat < y.toNat := by
            by_contra hc
            simp [hxy, hc] at hab
          have hxz : x.toNat < z.toNat := by omega
          have hxzne : ¬ (x.toNat = z.toNat) := by omega
          simp [listCharLeB, hxzne, hxz]
        · simp only [listCharLeB, hxy, if_neg] at hab
          simp only [listCharLeB, hyz, if_neg] at hbc
          have hlt1 : x.toNat < y.toNat := by
            by_contra hc
            simp [hxy, hc] at hab
          have hlt2 : y.toNat < z.toNat := by
            by_contra hc
            simp [hyz, hc] at hbc
          have hxz : x.toNat < z.toNat := by omega
          have hxzne : ¬ (x.toNat = z.toNat) := by omega
          simp [listCharLeB, hxzne, hxz]

theorem strLeB_total (a b : String) : strLeB a b = true ∨ strLeB b a = true :=
  listCharLeB_total a.data b.data

theorem strLeB_trans {a b c : String} (hab : strLeB a b = true) (hbc : strLeB b c = true) :
    strLeB a c = true :=
  listCharLeB_trans a.data b.data c.data hab hbc

theorem mem_insertHost {z x : String} : ∀ {l : List String}, z ∈ insertHost x l ↔ z = x ∨ z ∈ l := by
  intro l
  induction l with
  | nil => simp [insertHost]
  | cons y ys ih =>
    by_cases h : strLeB x y = true
    · simp [insertHost, h]
    · simp only [insertHost, h, if_neg, Bool.not_eq_true]
      simp only [List.mem_cons, ih]
      tauto

theorem perm_insertHost (x : String) : ∀ (l : List String), (insertHost x l).Perm (x :: l) := by
  intro l
  induction l with
  | nil => simp [insertHost]
  | cons y ys ih =>
    by_cases h : strLeB x y = true
    · simp [insertHost, h]
    · simp only [insertHost, h, if_neg, Bool.not_eq_true]
      exact (ih.cons y).trans (List.Perm.swap x y ys)

theorem pairwise_insertHost (x : String) :
    ∀ {l : List String}, l.Pairwise (fun a b => strLeB a b = true) →
      (insertHost x l).Pairwise (fun a b => strLeB a b = true) := by
  intro l
  induction l with
  | nil => intro _; simp [insertHost]
  | cons y ys ih =>
    intro hl
    rcases List.pairwise_cons.mp hl with ⟨hy, hys⟩
    by_cases h : strLeB x y = true
    · rw [show insertHost x (y :: ys) = x :: y :: ys by simp [insertHost, h]]
      refine List.pairwise_cons.mpr ⟨?_, hl⟩
      intro z hz
      rcases List.mem_cons.mp hz with hzy | hzys
      · exact hzy ▸ h
      · exact strLeB_trans h (hy z hzys)
    · rw [show insertHost x (y :: ys) = y :: insertHost x ys by simp [insertHost, h]]
      refine List.pairwise_cons.mpr ⟨?_, ih hys⟩
      intro z hz
      rcases mem_insertHost.mp hz with hzx | hzys
      · rw [hzx]
        exact (strLeB_total x y).resolve_left h
      · exact hy z hzys

theorem pairwise_sortStrings (l : List String) :
    (sortStrings l).Pairwise (fun a b => strLeB a b = true) := by
  induction l with
  | nil => simp [sortStrings]
  | cons x xs ih => exact pairwise_insertHost x ih

theorem perm_sortStrings (l : List String) : (sortStrings l).Perm l := by
  induction l with
  | nil => simp [sortStrings]
  | cons x xs ih => exact (perm_insertHost x (sortStrings xs)).trans (ih.cons x)

theorem ne_gomodPatchSourceName (n : String) : ¬ (n = gomodPatchSourceName n) := by
  intro h
  have hd := congrArg String.data h
  rw [gomodPatchSourceName, string_data_append] at hd
  have hl := congrArg List.length hd
  rw [List.length_append] at hl
  have h14 : ("__gomod_patch_".data).length = 14 := rfl
  omega

/-! ## Properties of the edit command compiler -/

theorem renderReplaceArgs_ok (l : List GomodReplace)
    (h : ∀ r ∈ l, isOkB (GomodReplace.goModEditArg r) = true) :
    ∃ ra, List.Forall₂ (fun r a => GomodReplace.goModEditArg r = Except.ok a) l ra ∧
      renderReplaceArgs l = Except.ok (ra.map (fun a => "-replace=" ++ a)) := by
  induction l with
  | nil => exact ⟨[], List.Forall₂.nil, rfl⟩
  | cons r rest ih =>
    have hr := h r (List.mem_cons_self r rest)
    cases harg : GomodReplace.goModEditArg r with
    | error e => rw [harg] at hr; simp [isOkB] at hr
    | ok a =>
      obtain ⟨ra, hf, hrr⟩ := ih (fun x hx => h x (List.mem_cons_of_mem r hx))
      exact ⟨a :: ra, List.Forall₂.cons harg hf, by simp [renderReplaceArgs, harg, hrr]⟩

theorem renderRequireArgs_ok (l : List GomodRequire)
    (h : ∀ r ∈ l, isOkB (GomodRequire.goModEditArg r) = true) :
    ∃ qa, List.Forall₂ (fun r a => GomodRequire.goModEditArg r = Except.ok a) l qa ∧
      renderRequireArgs l = Except.ok (qa.map (fun a => "-require=" ++ a)) := by
  induction l with
  | nil => exact ⟨[], List.Forall₂.nil, rfl⟩
  | cons r rest ih =>
    have hr := h r (List.mem_cons_self r rest)
    cases harg : GomodRequire.goModEditArg r with
    | error e => rw [harg] at hr; simp [isOkB] at hr
    | ok a =>
      obtain ⟨qa, hf, hrr⟩ := ih (fun x hx => h x (List.mem_cons_of_mem r hx))
      exact ⟨a :: qa, List.Forall₂.cons harg hf, by simp [renderRequireArgs, harg, hrr]⟩

/-- C2: for every edit set whose replace and require directives all render
successfully (and which is not empty), the compiled edit command is the
single string go mod edit followed by one replace flag per replace directive
in declared order, then one require flag per require directive in declared
order; replace flags precede require flags unconditionally. -/
theorem gomod_edit_command_flag_order (edits : GomodEdits) (gp : List String)
    (au : List (String × GomodGitAuth))
    (hrep : ∀ r ∈ edits.Replace, isOkB (GomodReplace.goModEditArg r) = true)
    (hreq : ∀ r ∈ edits.Require, isOkB (GomodRequire.goModEditArg r) = true)
    (hne : edits.Replace ≠ [] ∨ edits.Require ≠ []) :
    ∃ ra qa,
      List.Forall₂ (fun r a => GomodReplace.goModEditArg r = Except.ok a) edits.Replace ra ∧
      List.Forall₂ (fun r a => GomodRequire.goModEditArg r = Except.ok a) edits.Require qa ∧
      gomodEditCommand (some ⟨some edits, gp, au⟩) =
        Except.ok ("go mod edit " ++ strIntercalate " "
          (ra.map (fun a => "-replace=" ++ a) ++ qa.map (fun a => "-require=" ++ a))) := by
  obtain ⟨ra, hfa, hra⟩ := renderReplaceArgs_ok edits.Replace hrep
  obtain ⟨qa, hfq, hrq⟩ := renderRequireArgs_ok edits.Require hreq
  refine ⟨ra, qa, hfa, hfq, ?_⟩
  have hargs : ra.map (fun a => "-replace=" ++ a) ++ qa.map (fun a => "-require=" ++ a) ≠ [] := by
    rcases hne with h | h
    · have hralen := hfa.length_eq
      intro hh
      rcases List.append_eq_nil.mp hh with ⟨h1, _⟩
      rw [List.map_eq_nil_iff] at h1
      rw [h1] at hralen
      exact h (by simpa using hralen)
    · have hqalen := hfq.length_eq
      intro hh
      rcases List.append_eq_nil.mp hh with ⟨_, h2⟩
      rw [List.map_eq_nil_iff] at h2
      rw [h2] at hqalen
      exact h (by simpa using hqalen)
  simp [gomodEditCommand, hra, hrq, hargs]

/-- Witness for C2 at the spec example: one replace old to new and one
require of mod@ver. -/
theorem gomod_edit_command_flag_order_witness :
    ∃ ra qa,
      List.Forall₂ (fun r a => GomodReplace.goModEditArg r = Except.ok a)
        ([⟨"old", "new"⟩] : List GomodReplace) ra ∧
      List.Forall₂ (fun r a => GomodRequire.goModEditArg r = Except.ok a)
        ([⟨"mod", "mod@ver"⟩] : List GomodRequire) qa ∧
      gomodEditCommand (some ⟨some ⟨[⟨"old", "new"⟩], [⟨"mod", "mod@ver"⟩]⟩, [], []⟩) =
        Except.ok ("go mod edit " ++ strIntercalate " "
          (ra.map (fun a => "-replace=" ++ a) ++ qa.map (fun a => "-require=" ++ a))) :=
  gomod_edit_command_flag_order ⟨[⟨"old", "new"⟩], [⟨"mod", "mod@ver"⟩]⟩ [] []
    (by decide) (by decide) (by decide)

theorem exceptErrOpt_eq_some {α : Type} (x : Except String α) (e : String)
    (h : exceptErrOpt x = some e) : x = Except.error e := by
  cases x with
  | ok a => simp [exceptErrOpt] at h
  | error e0 =>
    simp [exceptErrOpt] at h
    rw [h]

theorem exceptErrOpt_eq_none {α : Type} (x : Except String α)
    (h : exceptErrOpt x = none) : isOkB x = true := by
  cases x with
  | ok a => rfl
  | error e0 => simp [exceptErrOpt] at h

theorem firstSomeStr_mem {α : Type} (f : α → Option String) (l : List α) (e : String)
    (h : firstSomeStr f l = some e) : ∃ x ∈ l, f x = some e := by
  induction l with
  | nil => simp [firstSomeStr] at h
  | cons y ys ih =>
    cases hfy : f y with
    | some e0 =>
      rw [firstSomeStr, hfy] at h
      exact ⟨y, List.mem_cons_self y ys, hfy.trans h⟩
    | none =>
      rw [firstSomeStr, hfy] at h
      obtain ⟨x, hx, hfx⟩ := ih h
      exact ⟨x, List.mem_cons_of_mem y hx, hfx⟩

theorem firstSomeStr_none {α : Type} (f : α → Option String) (l : List α)
    (h : firstSomeStr f l = none) : ∀ x ∈ l, f x = none := by
  induction l with
  | nil => intro x hx; cases hx
  | cons y ys ih =>
    intro x hx
    cases hfy : f y with
    | some e0 => rw [firstSomeStr, hfy] at h; cases h
    | none =>
      rw [firstSomeStr, hfy] at h
      rcases List.mem_cons.mp hx with hxy | hmem
      · rw [hxy]; exact hfy
      · exact ih h x hmem

theorem renderReplaceArgs_first_error (l : List GomodReplace) (e : String)
    (h : firstSomeStr (fun r => exceptErrOpt (GomodReplace.goModEditArg r)) l = some e) :
    renderReplaceArgs l = Except.error e := by
  induction l with
  | nil => simp [firstSomeStr] at h
  | cons r rest ih =>
    cases harg : GomodReplace.goModEditArg r with
    | error e0 =>
      rw [firstSomeStr] at h
      simp only [harg, exceptErrOpt] at h
      rw [Option.some_inj] at h
      rw [renderReplaceArgs, harg, h]
    | ok a =>
      rw [firstSomeStr] at h
      simp only [harg, exceptErrOpt] at h
      rw [renderReplaceArgs, harg, ih h]

theorem renderRequireArgs_first_error (l : List GomodRequire) (e : String)
    (h : firstSomeStr (fun r => exceptErrOpt (GomodRequire.goModEditArg r)) l = some e) :
    renderRequireArgs l = Except.error e := by
  induction l with
  | nil => simp [firstSomeStr] at h
  | cons r rest ih =>
    cases harg : GomodRequire.goModEditArg r with
    | error e0 =>
      rw [firstSomeStr] at h
      simp only [harg, exceptErrOpt] at h
      rw [Option.some_inj] at h
      rw [renderRequireArgs, harg, h]
    | ok a =>
      rw [firstSomeStr] at h
      simp only [harg, exceptErrOpt] at h
      rw [renderRequireArgs, harg, ih h]

theorem replace_goModEditArg_error_ident (r : GomodReplace) (e : String)
    (h : GomodReplace.goModEditArg r = Except.error e) :
    ∃ t, e = GomodReplace.ident r ++ t := by
  unfold GomodReplace.goModEditArg at h
  by_cases hc : r.Original = "" ∨ r.Update = ""
  · rw [if_pos hc] at h
    refine ⟨": old and new must be non-empty", ?_⟩
    injection h with hh
    exact hh.symm
  · rw [if_neg hc] at h
    cases h

theorem require_goModEditArg_error_ident (r : GomodRequire) (e : String)
    (h : GomodRequire.goModEditArg r = Except.error e) :
    ∃ t, e = GomodRequire.ident r ++ t := by
  unfold GomodRequire.goModEditArg at h
  by_cases h1 : r.Module = ""
  · rw [if_pos h1] at h
    refine ⟨": module must be non-empty", ?_⟩
    injection h with hh
    exact hh.symm
  · rw [if_neg h1] at h
    by_cases h2 : containsChar '@' r.Version = true
    · rw [if_pos h2] at h
      cases h
    · rw [if_neg h2] at h
      refine ⟨": version must include @version", ?_⟩
      injection h with hh
      exact hh.symm

/-- C6: when rendering any directive argument fails during edit command
compilation, the compiler returns the first rendering error encountered (in
the replace-then-require processing order), and that error is wrapped with
the identity of the failing directive. -/
theorem gomod_edit_command_first_error (edits : GomodEdits) (gp : List String)
    (au : List (String × GomodGitAuth)) (e : String)
    (h : firstRenderErr edits = some e) :
    gomodEditCommand (some ⟨some edits, gp, au⟩) = Except.error e ∧
    ((∃ r ∈ edits.Replace, GomodReplace.goModEditArg r = Except.error e ∧
        ∃ t, e = GomodReplace.ident r ++ t) ∨
     (∃ r ∈ edits.Require, GomodRequire.goModEditArg r = Except.error e ∧
        ∃ t, e = GomodRequire.ident r ++ t)) := by
  unfold firstRenderErr at h
  cases hrep : firstSomeStr (fun r => exceptErrOpt (GomodReplace.goModEditArg r)) edits.Replace with
  | some e0 =>
    rw [hrep] at h
    rw [Option.some_inj] at h
    rw [h] at hrep
    have hrender := renderReplaceArgs_first_error edits.Replace e hrep
    constructor
    · simp [gomodEditCommand, hrender]
    · left
      obtain ⟨r, hmem, hfr⟩ := firstSomeStr_mem _ _ _ hrep
      have harg := exceptErrOpt_eq_some _ _ hfr
      exact ⟨r, hmem, harg, replace_goModEditArg_error_ident r e harg⟩
  | none =>
    rw [hrep] at h
    have hall := firstSomeStr_none _ _ hrep
    have hok : ∀ r ∈ edits.Replace, isOkB (GomodReplace.goModEditArg r) = true :=
      fun r hr => exceptErrOpt_eq_none _ (hall r hr)
    obtain ⟨ra, _, hra⟩ := renderReplaceArgs_ok edits.Replace hok
    have hrender := renderRequireArgs_first_error edits.Require e h
    constructor
    · simp [gomodEditCommand, hra, hrender]
    · right
      obtain ⟨r, hmem, hfr⟩ := firstSomeStr_mem _ _ _ h
      have harg := exceptErrOpt_eq_some _ _ hfr
      exact ⟨r, hmem, harg, require_goModEditArg_error_ident r e harg⟩

/-- Witness for C6: a replace directive with both sides empty fails to
render and its error, wrapped with the directive identity, is returned by
the compiler. -/
theorem gomod_edit_command_first_error_witness :
    gomodEditCommand (some ⟨some ⟨[⟨"", ""⟩], []⟩, [], []⟩) =
      Except.error "replace :: old and new must be non-empty" ∧
    ((∃ r ∈ ([⟨"", ""⟩] : List GomodReplace),
        GomodReplace.goModEditArg r = Except.error "replace :: old and new must be non-empty" ∧
        ∃ t, "replace :: old and new must be non-empty" = GomodReplace.ident r ++ t) ∨
     (∃ r ∈ ([] : List GomodRequire),
        GomodRequire.goModEditArg r = Except.error "replace :: old and new must be non-empty" ∧
        ∃ t, "replace :: old and new must be non-empty" = GomodRequire.ident r ++ t)) :=
  gomod_edit_command_first_error ⟨[⟨"", ""⟩], []⟩ [] []
    "replace :: old and new must be non-empty" (by decide)

theorem gomodEditCommand_empty (g : GeneratorGomod)
    (hg : g.Edits = none ∨ g.Edits = some ⟨[], []⟩) :
    gomodEditCommand (some g) = Except.ok "" := by
  rcases hg with h | h <;> simp [gomodEditCommand, h, renderReplaceArgs, renderRequireArgs]

theorem gomodEditCommand_of_emptyB (og : Option GeneratorGomod)
    (h : emptyGomodEditsB (some ⟨og, ""⟩) = true) :
    gomodEditCommand og = Except.ok "" := by
  cases og with
  | none => rfl
  | some gg =>
    cases he : gg.Edits with
    | none => simp [gomodEditCommand, he]
    | some e =>
      rw [emptyGomodEditsB] at h
      simp only [he, Bool.and_eq_true] at h
      have h1 : e.Replace = [] := List.isEmpty_iff.mp h.1
      have h2 : e.Require = [] := List.isEmpty_iff.mp h.2
      simp [gomodEditCommand, he, h1, h2, renderReplaceArgs, renderRequireArgs]

theorem generate_none_of_empty (n : String) (sg : SourceGenerator)
    (base worker : LLBState)
    (h : emptyGomodEditsB (some sg) = true) :
    generateGomodPatchStateForSource n sg base worker = Except.ok none := by
  have hcmd : gomodEditCommand sg.Gomod = Except.ok "" := by
    have : emptyGomodEditsB (some ⟨sg.Gomod, ""⟩) = true := by
      obtain ⟨go, sp⟩ := sg
      exact h
    exact gomodEditCommand_of_emptyB sg.Gomod this
  rw [generateGomodPatchStateForSource, hcmd]
  rfl

theorem processGen_empty (worker : LLBState) (n : String) (base : LLBState) (s : Spec)
    (og : Option SourceGenerator) (h : emptyGomodEditsB og = true) :
    processGen worker n base s og = Except.ok s := by
  cases og with
  | none => rfl
  | some sg =>
    rw [processGen]
    cases hgo : sg.Gomod with
    | none => rfl
    | some gg =>
      rw [generate_none_of_empty n sg base worker h]

theorem processGens_empty (worker : LLBState) (n : String) (base : LLBState) (s : Spec)
    (gl : List (Option SourceGenerator)) (h : ∀ og ∈ gl, emptyGomodEditsB og = true) :
    processGens worker n base s gl = Except.ok s := by
  induction gl generalizing s with
  | nil => rfl
  | cons og rest ih =>
    rw [processGens, processGen_empty worker n base s og (h og (List.mem_cons_self og rest))]
    exact ih s (fun x hx => h x (List.mem_cons_of_mem og hx))

theorem processSources_empty (worker : LLBState) (bs : List (String × LLBState)) (s : Spec)
    (srcs : List (String × Source))
    (h : ∀ p ∈ srcs, ∀ og ∈ p.2.Generate, emptyGomodEditsB og = true) :
    processSources worker bs s srcs = Except.ok s := by
  induction srcs generalizing s with
  | nil => rfl
  | cons p rest ih =>
    obtain ⟨n, src⟩ := p
    rw [processSources]
    cases hb : lookupA bs n with
    | none => exact ih s (fun x hx => h x (List.mem_cons_of_mem _ hx))
    | some base =>
      have hg := processGens_empty worker n base s src.Generate
        (h (n, src) (List.mem_cons_self _ rest))
      simp only [hg]
      exact ih s (fun x hx => h x (List.mem_cons_of_mem _ hx))

/-- C3: an empty edit set compiles to the empty command string with no
error; the patch-state builder returns no state and no error for a generator
with an empty edit set; and a specification whose generators all carry empty
edit sets is preprocessed to itself with no error, registering zero new
patch sources and zero new patch references. -/
theorem gomod_empty_edits_noop (g : GeneratorGomod) (n sp : String)
    (base worker : LLBState) (s : Spec) (bs : List (String × LLBState))
    (hg : g.Edits = none ∨ g.Edits = some ⟨[], []⟩)
    (hall : ∀ p ∈ s.Sources, ∀ og ∈ p.2.Generate, emptyGomodEditsB og = true) :
    gomodEditCommand (some g) = Except.ok "" ∧
    generateGomodPatchStateForSource n ⟨some g, sp⟩ base worker = Except.ok none ∧
    Spec.Preprocess s bs worker = Except.ok s := by
  refine ⟨gomodEditCommand_empty g hg, ?_, ?_⟩
  · apply generate_none_of_empty
    rw [emptyGomodEditsB]
    rcases hg with h | h <;> simp [h]
  · rw [Spec.Preprocess, Spec.preprocessGomodEdits]
    by_cases hemp : (Spec.gomodSources s).isEmpty = true
    · simp [hemp]
    · simp only [hemp, if_neg, Bool.not_eq_true]
      rw [processSources_empty worker bs s (Spec.gomodSources s)
        (fun p hp => hall p (List.mem_of_mem_filter hp))]

/-- Witness for C3: a one-source specification whose generator has an edit
set with no replace and no require directives. -/
theorem gomod_empty_edits_noop_witness :
    gomodEditCommand (some ⟨some ⟨[], []⟩, [], []⟩) = Except.ok "" ∧
    generateGomodPatchStateForSource "src1" ⟨some ⟨some ⟨[], []⟩, [], []⟩, ""⟩
      LLBState.scratch LLBState.scratch = Except.ok none ∧
    Spec.Preprocess
      ⟨[("src1", ⟨[some ⟨some ⟨some ⟨[], []⟩, [], []⟩, ""⟩], none⟩)], []⟩
      [("src1", LLBState.scratch)] LLBState.scratch =
      Except.ok ⟨[("src1", ⟨[some ⟨some ⟨some ⟨[], []⟩, [], []⟩, ""⟩], none⟩)], []⟩ :=
  gomod_empty_edits_noop ⟨some ⟨[], []⟩, [], []⟩ "src1" ""
    LLBState.scratch LLBState.scratch
    ⟨[("src1", ⟨[some ⟨some ⟨some ⟨[], []⟩, [], []⟩, ""⟩], none⟩)], []⟩
    [("src1", LLBState.scratch)]
    (Or.inr rfl) (by decide)

/-! ## Properties of validation -/

theorem string_empty_append (a : String) : "" ++ a = a := by
  cases a
  exact congrArg String.mk (List.nil_append _)

theorem joinMsgs_mem_decomp (x : String) : ∀ (l : List String), x ∈ l →
    ∃ a b, joinMsgs l = a ++ x ++ b := by
  intro l
  induction l with
  | nil => intro hx; cases hx
  | cons m rest ih =>
    intro hx
    rcases List.mem_cons.mp hx with hxm | hmem
    · cases rest with
      | nil =>
        refine ⟨"", "", ?_⟩
        rw [joinMsgs, hxm, string_empty_append, string_append_empty]
      | cons t ts =>
        refine ⟨"", "; " ++ joinMsgs (t :: ts), ?_⟩
        rw [joinMsgs, hxm, string_empty_append]
        simp only [string_append_assoc]
    · cases rest with
      | nil => cases hmem
      | cons t ts =>
        obtain ⟨a, b, hab⟩ := ih hmem
        refine ⟨m ++ "; " ++ a, b, ?_⟩
        rw [joinMsgs, hab]
        simp only [string_append_assoc]

theorem mem_concatMsgs {α : Type} (f : α → List String) (x : α) (m : String) :
    ∀ (l : List α), x ∈ l → m ∈ f x → m ∈ concatMsgs f l := by
  intro l
  induction l with
  | nil => intro hx; cases hx
  | cons y ys ih =>
    intro hx hm
    rcases List.mem_cons.mp hx with hxy | hmem
    · rw [concatMsgs]
      exact List.mem_append.mpr (Or.inl (hxy ▸ hm))
    · rw [concatMsgs]
      exact List.mem_append.mpr (Or.inr (ih hmem hm))

/-- C4: validation checks every require and every replace directive and
aggregates all violations into one reported error rather than failing on the
first: for any edit set containing an invalid require and an independently
invalid replace, Validate returns a single non-nil error whose text contains
every violation message of both directives. -/
theorem gomod_validate_aggregates_violations (g : GeneratorGomod) (e : GomodEdits) (sp : String)
    (hq : g.Edits = some e)
    (rq : GomodRequire) (hrq : rq ∈ e.Require) (hrqbad : GomodRequire.validationMsgs rq ≠ [])
    (rp : GomodReplace) (hrp : rp ∈ e.Replace) (_hrpbad : GomodReplace.validationMsgs rp ≠ []) :
    ∃ msg, SourceGenerator.Validate ⟨some g, sp⟩ = some msg ∧
      (∀ m ∈ GomodRequire.validationMsgs rq, ∃ a b, msg = a ++ m ++ b) ∧
      (∀ m ∈ GomodReplace.validationMsgs rp, ∃ a b, msg = a ++ m ++ b) := by
  have hmemr : ∀ m ∈ GomodRequire.validationMsgs rq, m ∈ GomodEdits.validationMsgs e := by
    intro m hm
    rw [GomodEdits.validationMsgs]
    exact List.mem_append.mpr (Or.inl (mem_concatMsgs _ rq m e.Require hrq hm))
  have hmemp : ∀ m ∈ GomodReplace.validationMsgs rp, m ∈ GomodEdits.validationMsgs e := by
    intro m hm
    rw [GomodEdits.validationMsgs]
    exact List.mem_append.mpr (Or.inr (mem_concatMsgs _ rp m e.Replace hrp hm))
  have hne : GomodEdits.validationMsgs e ≠ [] := by
    cases hmm : GomodRequire.validationMsgs rq with
    | nil => exact absurd hmm hrqbad
    | cons m ms =>
      intro hcon
      have hmem := hmemr m (by rw [hmm]; exact List.mem_cons_self m ms)
      rw [hcon] at hmem
      cases hmem
  cases hv : GomodEdits.validationMsgs e with
  | nil => exact absurd hv hne
  | cons m0 ms0 =>
    refine ⟨joinMsgs (m0 :: ms0), ?_, ?_, ?_⟩
    · simp [SourceGenerator.Validate, hq, hv]
    · intro m hm
      exact joinMsgs_mem_decomp m _ (hv ▸ hmemr m hm)
    · intro m hm
      exact joinMsgs_mem_decomp m _ (hv ▸ hmemp m hm)

/-- Witness for C4 at the multiple-errors test row: a require with empty
module and version lacking the @ pin together with a replace with both sides
empty. -/
theorem gomod_validate_aggregates_violations_witness :
    ∃ msg, SourceGenerator.Validate
        ⟨some ⟨some ⟨[⟨"", ""⟩], [⟨"", "v1.8.0"⟩]⟩, [], []⟩, ""⟩ = some msg ∧
      (∀ m ∈ GomodRequire.validationMsgs ⟨"", "v1.8.0"⟩, ∃ a b, msg = a ++ m ++ b) ∧
      (∀ m ∈ GomodReplace.validationMsgs ⟨"", ""⟩, ∃ a b, msg = a ++ m ++ b) :=
  gomod_validate_aggregates_violations ⟨some ⟨[⟨"", ""⟩], [⟨"", "v1.8.0"⟩]⟩, [], []⟩
    ⟨[⟨"", ""⟩], [⟨"", "v1.8.0"⟩]⟩ "" rfl
    ⟨"", "v1.8.0"⟩ (by decide) (by decide)
    ⟨"", ""⟩ (by decide) (by decide)

/-! ## Decoding against the test tables -/

/-- C5 counterexample: the claim defers a require version lacking the @ pin
to validation time, but the unmarshal test table in the sources marks the
compact input github.com/stretchr/testify:v1.8.0 (which has a colon) as a
decode error; a decoder following the claim words accepts it, the decoder
modelled on the tests rejects it. -/
theorem gomod_decode_defers_violations_counterexample :
    (⟨TextValue.str "github.com/stretchr/testify:v1.8.0", true, "", ""⟩ : UnmarshalCase)
        ∈ requireUnmarshalTests ∧
    isOkB (GomodRequire.decodeClaim (TextValue.str "github.com/stretchr/testify:v1.8.0")) = true ∧
    isOkB (GomodRequire.decode (TextValue.str "github.com/stretchr/testify:v1.8.0")) = false := by
  decide

/-- C5 amended: for both directive kinds and both textual encodings,
decoding accepts the compact colon-separated string and the structured
mapping, rejects a compact string lacking a colon and a mapping missing a
required field, and additionally enforces the field invariants (require
version containing @, replace sides non-empty) at decode time; the modelled
decoders agree with every row of the two unmarshal test tables of the
sources. -/
theorem gomod_decode_matches_tests :
    (requireUnmarshalTests.all requireDecodeAgrees &&
      replaceUnmarshalTests.all replaceDecodeAgrees) = true := by
  decide

/-! ## Properties of the auth section of the script -/

theorem gomodAuthStep_eq (auth : List (String × GomodGitAuth)) (acc : String × List String)
    (host : String) :
    gomodAuthStep auth acc host = (acc.1 ++ hostAuthLine auth host, acc.2 ++ [cutBefore ':' host]) := by
  simp only [gomodAuthStep, hostAuthLine]
  cases hssh : (lookupAuth auth host).SSH with
  | some sshConfig => rfl
  | none =>
    by_cases ht : (lookupAuth auth host).Token ≠ ""
    · simp [ht]
    · by_cases hh : (lookupAuth auth host).Header ≠ ""
      · simp [ht, hh]
      · simp [ht, hh, string_append_empty]

theorem authFold_eq (auth : List (String × GomodGitAuth)) :
    ∀ (hosts : List String) (acc : String × List String),
      hosts.foldl (gomodAuthStep auth) acc =
        (acc.1 ++ strConcat (hosts.map (hostAuthLine auth)),
         acc.2 ++ hosts.map (cutBefore ':')) := by
  intro hosts
  induction hosts with
  | nil => intro acc; simp [strConcat, string_append_empty]
  | cons h t ih =>
    intro acc
    rw [List.foldl_cons, gomodAuthStep_eq, ih]
    simp only [List.map_cons, strConcat, Prod.mk.injEq]
    exact ⟨string_append_assoc _ _ _, by simp [List.append_assoc]⟩

/-- C7: the git config section of the synthesized script visits the
configured hosts in deterministic sorted key order (a sorted permutation of
the Auth mapping keys), and emits per host exactly the SSH insteadOf rewrite
with username defaulting to git, else a credential-helper registration of
kind token or header, else nothing. -/
theorem gomod_auth_script_sorted_hosts (auth : List (String × GomodGitAuth)) :
    (buildAuthSection auth).1 = strConcat ((SortMapKeys auth).map (hostAuthLine auth)) ∧
    (SortMapKeys auth).Pairwise (fun a b => strLeB a b = true) ∧
    (SortMapKeys auth).Perm (auth.map Prod.fst) := by
  refine ⟨?_, pairwise_sortStrings _, perm_sortStrings _⟩
  rw [buildAuthSection]
  cases hl : SortMapKeys auth with
  | nil => simp [strConcat]
  | cons h t =>
    simp only [List.isEmpty_cons, Bool.false_eq_true, if_false]
    rw [authFold_eq]
    simp [string_empty_append]

theorem goQuote_ne_empty (s : String) : ¬(goQuote s = "") := by
  intro h
  exact List.cons_ne_nil _ _ (congrArg String.data h)

theorem exports_text_ne_empty (gp gi : String) :
    ¬("\nexport GOPRIVATE=" ++ gp ++ "\nexport GOINSECURE=" ++ gi = "") := by
  intro h
  have hd := congrArg String.data h
  rw [string_data_append, string_data_append, string_data_append] at hd
  rcases List.append_eq_nil.mp hd with ⟨h1, _⟩
  rcases List.append_eq_nil.mp h1 with ⟨h2, _⟩
  rcases List.append_eq_nil.mp h2 with ⟨h3, _⟩
  exact absurd h3 (by decide)

/-- C8 amended: the synthesized script exports GOPRIVATE and GOINSECURE if
and only if the Auth mapping is non-empty, and both are set to the quoted
comma-join of all mapped host names (with any port suffix stripped), whether
or not a host carries credential material. -/
theorem gomod_goprivate_exports_all_hosts (auth : List (String × GomodGitAuth)) :
    ((buildAuthSection auth).2.1 =
      (if auth = [] then ""
       else goQuote (strIntercalate "," ((SortMapKeys auth).map (cutBefore ':'))))) ∧
    (buildAuthSection auth).2.2 = (buildAuthSection auth).2.1 ∧
    (gomodScriptAuthExports (buildAuthSection auth).2.1 (buildAuthSection auth).2.2 = ""
      ↔ auth = []) := by
  have hkeys : SortMapKeys auth = [] ↔ auth = [] := by
    constructor
    · intro h
      have hp := perm_sortStrings (auth.map Prod.fst)
      rw [SortMapKeys] at h
      rw [h] at hp
      have hmnil := hp.symm.eq_nil
      exact List.map_eq_nil_iff.mp hmnil
    · intro h
      rw [h]
      rfl
  by_cases ha : auth = []
  · subst ha
    exact ⟨by decide, by decide, by decide⟩
  · have hne : ¬(SortMapKeys auth = []) := fun hh => ha (hkeys.mp hh)
    cases hl : SortMapKeys auth with
    | nil => exact absurd hl hne
    | cons h t =>
      have hbuild : buildAuthSection auth =
          (strConcat ((h :: t).map (hostAuthLine auth)),
           goQuote (strIntercalate "," ((h :: t).map (cutBefore ':'))),
           goQuote (strIntercalate "," ((h :: t).map (cutBefore ':')))) := by
        rw [buildAuthSection, hl]
        simp only [List.isEmpty_cons, Bool.false_eq_true, if_false]
        rw [authFold_eq]
        simp [string_empty_append]
      rw [hbuild]
      refine ⟨by simp [ha], rfl, ?_⟩
      rw [gomodScriptAuthExports]
      rw [if_pos (goQuote_ne_empty (strIntercalate "," ((h :: t).map (cutBefore ':'))))]
      constructor
      · intro hcon
        exact absurd hcon (exports_text_ne_empty _ _)
      · intro hcon
        exact absurd hcon ha

/-- C8 counterexample: a host entry carrying no credential configuration at
all still makes the script export GOPRIVATE and GOINSECURE, and the exported
value names that host; the claim would require no export here. -/
theorem gomod_goprivate_credless_host_counterexample :
    ([("example.com", (⟨none, "", ""⟩ : GomodGitAuth))].filter
        (fun p => gomodAuthCarriesCreds p.2) = []) ∧
    gomodScriptAuthExports
        (buildAuthSection [("example.com", ⟨none, "", ""⟩)]).2.1
        (buildAuthSection [("example.com", ⟨none, "", ""⟩)]).2.2 =
      "\nexport GOPRIVATE=\"example.com\"\nexport GOINSECURE=\"example.com\"" := by
  decide

/-! ## Credential independence of the script text -/

theorem forall2_keys_eq {a b : List (String × GomodGitAuth)}
    (hk : List.Forall₂ (fun p q => p.1 = q.1 ∧ p.2.SSH = q.2.SSH ∧
      (p.2.Token = "" ↔ q.2.Token = "") ∧ (p.2.Header = "" ↔ q.2.Header = "")) a b) :
    a.map Prod.fst = b.map Prod.fst := by
  induction hk with
  | nil => rfl
  | cons h _ ih => simp only [List.map_cons, h.1, ih]

theorem forall2_lookupAuth {a b : List (String × GomodGitAuth)}
    (hk : List.Forall₂ (fun p q => p.1 = q.1 ∧ p.2.SSH = q.2.SSH ∧
      (p.2.Token = "" ↔ q.2.Token = "") ∧ (p.2.Header = "" ↔ q.2.Header = "")) a b)
    (host : String) :
    (lookupAuth a host).SSH = (lookupAuth b host).SSH ∧
    ((lookupAuth a host).Token = "" ↔ (lookupAuth b host).Token = "") ∧
    ((lookupAuth a host).Header = "" ↔ (lookupAuth b host).Header = "") := by
  induction a generalizing b with
  | nil =>
    cases hk
    exact ⟨rfl, Iff.rfl, Iff.rfl⟩
  | cons p rest ih =>
    cases hk with
    | cons hpq htail =>
      rename_i q qrest
      obtain ⟨hkey, hssh, htok, hhdr⟩ := hpq
      obtain ⟨pk, pv⟩ := p
      obtain ⟨qk, qv⟩ := q
      have hkey2 : pk = qk := hkey
      by_cases hh : pk = host
      · have hq : qk = host := by rw [← hkey2]; exact hh
        simp only [lookupAuth, lookupA, hh, hq, if_pos, Option.getD_some]
        exact ⟨hssh, htok, hhdr⟩
      · have hq : ¬(qk = host) := by rw [← hkey2]; exact hh
        simp only [lookupAuth, lookupA, hh, hq, if_neg, if_false]
        exact ih htail

theorem hostAuthLine_shape_eq {a b : List (String × GomodGitAuth)}
    (hk : List.Forall₂ (fun p q => p.1 = q.1 ∧ p.2.SSH = q.2.SSH ∧
      (p.2.Token = "" ↔ q.2.Token = "") ∧ (p.2.Header = "" ↔ q.2.Header = "")) a b)
    (host : String) :
    hostAuthLine a host = hostAuthLine b host := by
  obtain ⟨hssh, htok, hhdr⟩ := forall2_lookupAuth hk host
  simp only [hostAuthLine]
  rw [hssh]
  cases (lookupAuth b host).SSH with
  | some c => rfl
  | none =>
    by_cases hbt : (lookupAuth b host).Token = ""
    · have hat : (lookupAuth a host).Token = "" := htok.mpr hbt
      by_cases hbh : (lookupAuth b host).Header = ""
      · have hah : (lookupAuth a host).Header = "" := hhdr.mpr hbh
        simp [hat, hbt, hah, hbh]
      · have hah : ¬((lookupAuth a host).Header = "") := fun hc => hbh (hhdr.mp hc)
        simp [hat, hbt, hah, hbh]
    · have hat : ¬((lookupAuth a host).Token = "") := fun hc => hbt (htok.mp hc)
      simp [hat, hbt]

theorem gomodAuthStep_shape_eq {a b : List (String × GomodGitAuth)}
    (hk : List.Forall₂ (fun p q => p.1 = q.1 ∧ p.2.SSH = q.2.SSH ∧
      (p.2.Token = "" ↔ q.2.Token = "") ∧ (p.2.Header = "" ↔ q.2.Header = "")) a b) :
    gomodAuthStep a = gomodAuthStep b := by
  funext acc host
  rw [gomodAuthStep_eq, gomodAuthStep_eq, hostAuthLine_shape_eq hk]

theorem buildAuthSection_shape_eq {a b : List (String × GomodGitAuth)}
    (hk : List.Forall₂ (fun p q => p.1 = q.1 ∧ p.2.SSH = q.2.SSH ∧
      (p.2.Token = "" ↔ q.2.Token = "") ∧ (p.2.Header = "" ↔ q.2.Header = "")) a b) :
    buildAuthSection a = buildAuthSection b := by
  have h1 : SortMapKeys a = SortMapKeys b := by
    rw [SortMapKeys, SortMapKeys, forall2_keys_eq hk]
  rw [buildAuthSection, buildAuthSection, h1, gomodAuthStep_shape_eq hk]

/-- C9: changing only the Token or Header value of any host, keeping which
kind is set and keeping the SSH configuration, leaves the synthesized patch
script text unchanged: credential material never appears in the script text
or the exported GOPRIVATE/GOINSECURE values. -/
theorem gomod_script_credential_independence
    (editCmd sourceName patchOutputDir sp : String) (paths gpaths : List String)
    (ed : Option GomodEdits) (a b : List (String × GomodGitAuth))
    (hk : List.Forall₂ (fun p q => p.1 = q.1 ∧ p.2.SSH = q.2.SSH ∧
      (p.2.Token = "" ↔ q.2.Token = "") ∧ (p.2.Header = "" ↔ q.2.Header = "")) a b) :
    buildGomodPatchScript editCmd paths ⟨some ⟨ed, gpaths, a⟩, sp⟩ sourceName patchOutputDir =
      buildGomodPatchScript editCmd paths ⟨some ⟨ed, gpaths, b⟩, sp⟩ sourceName patchOutputDir := by
  simp only [buildGomodPatchScript]
  rw [buildAuthSection_shape_eq hk]

/-- Witness for C9: two configurations differing only in the bearer token
value of one host synthesize the identical script text. -/
theorem gomod_script_credential_independence_witness :
    buildGomodPatchScript "go mod edit -require=example.com/a@v1.2.0" ["."]
        ⟨some ⟨none, [], [("example.com", ⟨none, "token-value-one", ""⟩)]⟩, ""⟩
        "src1" "/tmp/patch-work" =
      buildGomodPatchScript "go mod edit -require=example.com/a@v1.2.0" ["."]
        ⟨some ⟨none, [], [("example.com", ⟨none, "token-value-two", ""⟩)]⟩, ""⟩
        "src1" "/tmp/patch-work" :=
  gomod_script_credential_independence "go mod edit -require=example.com/a@v1.2.0"
    "src1" "/tmp/patch-work" "" ["."] [] none
    [("example.com", ⟨none, "token-value-one", ""⟩)]
    [("example.com", ⟨none, "token-value-two", ""⟩)]
    (List.Forall₂.cons ⟨rfl, rfl, by decide, by decide⟩ List.Forall₂.nil)

/-! ## Registration behavior of preprocessing -/

theorem processGen_some (worker : LLBState) (n : String) (base : LLBState) (s : Spec)
    (g : GeneratorGomod) (sp : String) (st : LLBState)
    (hst : generateGomodPatchStateForSource n ⟨some g, sp⟩ base worker = Except.ok (some st)) :
    processGen worker n base s (some ⟨some g, sp⟩) =
      Except.ok ⟨insertA s.Sources (gomodPatchSourceName n) ⟨[], some st⟩,
        insertA s.Patches n ((lookupA s.Patches n).getD [] ++
          [⟨gomodPatchSourceName n, gomodPatchFilename, some 1⟩])⟩ := by
  simp only [processGen, hst]

/-- C1: for a source with a gomod generator whose patch-state build returns
a non-nil state, Preprocess registers exactly one new internal source keyed
by the derived patch-source name and holding that state, and appends exactly
one patch reference with Source the derived name, Path gomod.patch and Strip
one, preserving the patch references already present for the source. -/
theorem gomod_preprocess_registers_patch_source
    (n sp : String) (g : GeneratorGomod) (base worker st : LLBState)
    (ps₀ : List (String × List PatchSpec))
    (hst : generateGomodPatchStateForSource n ⟨some g, sp⟩ base worker = Except.ok (some st)) :
    Spec.Preprocess ⟨[(n, ⟨[some ⟨some g, sp⟩], none⟩)], ps₀⟩ [(n, base)] worker =
      Except.ok ⟨[(n, ⟨[some ⟨some g, sp⟩], none⟩), (gomodPatchSourceName n, ⟨[], some st⟩)],
        insertA ps₀ n ((lookupA ps₀ n).getD [] ++
          [⟨gomodPatchSourceName n, gomodPatchFilename, some 1⟩])⟩ := by
  have hne : ¬(n = gomodPatchSourceName n) := ne_gomodPatchSourceName n
  have hlook : lookupA [(n, base)] n = some base := by simp [lookupA]
  have hgen := processGen_some worker n base ⟨[(n, ⟨[some ⟨some g, sp⟩], none⟩)], ps₀⟩ g sp st hst
  have hspec : insertA ([(n, ⟨[some ⟨some g, sp⟩], none⟩)] : List (String × Source))
      (gomodPatchSourceName n) ⟨[], some st⟩ =
      [(n, ⟨[some ⟨some g, sp⟩], none⟩), (gomodPatchSourceName n, ⟨[], some st⟩)] := by
    simp [insertA, hne]
  have e1 : Spec.preprocessGomodEdits ⟨[(n, ⟨[some ⟨some g, sp⟩], none⟩)], ps₀⟩ [(n, base)] worker =
      processSources worker [(n, base)] ⟨[(n, ⟨[some ⟨some g, sp⟩], none⟩)], ps₀⟩
        [(n, ⟨[some ⟨some g, sp⟩], none⟩)] := rfl
  have hpre : Spec.preprocessGomodEdits ⟨[(n, ⟨[some ⟨some g, sp⟩], none⟩)], ps₀⟩ [(n, base)] worker =
      Except.ok ⟨[(n, ⟨[some ⟨some g, sp⟩], none⟩), (gomodPatchSourceName n, ⟨[], some st⟩)],
        insertA ps₀ n ((lookupA ps₀ n).getD [] ++
          [⟨gomodPatchSourceName n, gomodPatchFilename, some 1⟩])⟩ := by
    rw [e1]
    simp only [processSources, processGens, hlook, hgen]
    rw [hspec]
  rw [Spec.Preprocess, hpre]

/-- Witness for C1 at the end-to-end spec example: one generator requiring
example.com/a@v1.2.0 on source src1. -/
theorem gomod_preprocess_registers_patch_source_witness :
    Spec.Preprocess ⟨[("src1", ⟨[some ⟨some genExC1, ""⟩], none⟩)], []⟩
        [("src1", LLBState.scratch)] LLBState.scratch =
      Except.ok ⟨[("src1", ⟨[some ⟨some genExC1, ""⟩], none⟩),
          (gomodPatchSourceName "src1", ⟨[], some stExC1⟩)],
        insertA [] "src1" ((lookupA [] "src1").getD [] ++
          [⟨gomodPatchSourceName "src1", gomodPatchFilename, some 1⟩])⟩ :=
  gomod_preprocess_registers_patch_source "src1" "" genExC1
    LLBState.scratch LLBState.scratch stExC1 [] rfl

/-- C10: a source declaring two gomod generators that both build non-nil
patch states derives the identical patch-source name for both, so Preprocess
registers the later generator state under the single shared Sources key
(overwriting the earlier registration) while appending one patch reference
per generator, both pointing at the shared name. -/
theorem gomod_preprocess_shared_patch_source_name
    (n sp₁ sp₂ : String) (g₁ g₂ : GeneratorGomod) (base worker st₁ st₂ : LLBState)
    (ps₀ : List (String × List PatchSpec))
    (h₁ : generateGomodPatchStateForSource n ⟨some g₁, sp₁⟩ base worker = Except.ok (some st₁))
    (h₂ : generateGomodPatchStateForSource n ⟨some g₂, sp₂⟩ base worker = Except.ok (some st₂)) :
    Spec.Preprocess ⟨[(n, ⟨[some ⟨some g₁, sp₁⟩, some ⟨some g₂, sp₂⟩], none⟩)], ps₀⟩
        [(n, base)] worker =
      Except.ok ⟨[(n, ⟨[some ⟨some g₁, sp₁⟩, some ⟨some g₂, sp₂⟩], none⟩),
          (gomodPatchSourceName n, ⟨[], some st₂⟩)],
        insertA ps₀ n ((lookupA ps₀ n).getD [] ++
          [⟨gomodPatchSourceName n, gomodPatchFilename, some 1⟩,
           ⟨gomodPatchSourceName n, gomodPatchFilename, some 1⟩])⟩ := by
  have hne : ¬(n = gomodPatchSourceName n) := ne_gomodPatchSourceName n
  have hlook : lookupA [(n, base)] n = some base := by simp [lookupA]
  have hg1 := processGen_some worker n base
    ⟨[(n, ⟨[some ⟨some g₁, sp₁⟩, some ⟨some g₂, sp₂⟩], none⟩)], ps₀⟩ g₁ sp₁ st₁ h₁
  have hg2 := processGen_some worker n base
    ⟨insertA [(n, ⟨[some ⟨some g₁, sp₁⟩, some ⟨some g₂, sp₂⟩], none⟩)]
        (gomodPatchSourceName n) ⟨[], some st₁⟩,
      insertA ps₀ n ((lookupA ps₀ n).getD [] ++
        [⟨gomodPatchSourceName n, gomodPatchFilename, some 1⟩])⟩ g₂ sp₂ st₂ h₂
  simp only [insertA_insertA, lookupA_insertA_self, Option.getD_some,
    List.append_assoc, List.cons_append, List.nil_append] at hg2
  have hspec2 : insertA ([(n, ⟨[some ⟨some g₁, sp₁⟩, some ⟨some g₂, sp₂⟩], none⟩)] :
      List (String × Source)) (gomodPatchSourceName n) ⟨[], some st₂⟩ =
      [(n, ⟨[some ⟨some g₁, sp₁⟩, some ⟨some g₂, sp₂⟩], none⟩),
       (gomodPatchSourceName n, ⟨[], some st₂⟩)] := by
    simp [insertA, hne]
  have e1 : Spec.preprocessGomodEdits
      ⟨[(n, ⟨[some ⟨some g₁, sp₁⟩, some ⟨some g₂, sp₂⟩], none⟩)], ps₀⟩ [(n, base)] worker =
      processSources worker [(n, base)]
        ⟨[(n, ⟨[some ⟨some g₁, sp₁⟩, some ⟨some g₂, sp₂⟩], none⟩)], ps₀⟩
        [(n, ⟨[some ⟨some g₁, sp₁⟩, some ⟨some g₂, sp₂⟩], none⟩)] := rfl
  have hpre : Spec.preprocessGomodEdits
      ⟨[(n, ⟨[some ⟨some g₁, sp₁⟩, some ⟨some g₂, sp₂⟩], none⟩)], ps₀⟩ [(n, base)] worker =
      Except.ok ⟨[(n, ⟨[some ⟨some g₁, sp₁⟩, some ⟨some g₂, sp₂⟩], none⟩),
          (gomodPatchSourceName n, ⟨[], some st₂⟩)],
        insertA ps₀ n ((lookupA ps₀ n).getD [] ++
          [⟨gomodPatchSourceName n, gomodPatchFilename, some 1⟩,
           ⟨gomodPatchSourceName n, gomodPatchFilename, some 1⟩])⟩ := by
    rw [e1]
    simp only [processSources, processGens, hlook, hg1, hg2]
    rw [hspec2]
  rw [Spec.Preprocess, hpre]

/-- Witness for C10: a source with two gomod generators; both patch
references point at the single shared internal source name, which holds the
state of the second generator. -/
theorem gomod_preprocess_shared_patch_source_name_witness :
    Spec.Preprocess ⟨[("src1", ⟨[some ⟨some genExC1, ""⟩, some ⟨some genExC10, ""⟩], none⟩)], []⟩
        [("src1", LLBState.scratch)] LLBState.scratch =
      Except.ok ⟨[("src1", ⟨[some ⟨some genExC1, ""⟩, some ⟨some genExC10, ""⟩], none⟩),
          (gomodPatchSourceName "src1", ⟨[], some stExC10⟩)],
        insertA [] "src1" ((lookupA [] "src1").getD [] ++
          [⟨gomodPatchSourceName "src1", gomodPatchFilename, some 1⟩,
           ⟨gomodPatchSourceName "src1", gomodPatchFilename, some 1⟩])⟩ :=
  gomod_preprocess_shared_patch_source_name "src1" "" "" genExC1 genExC10
    LLBState.scratch LLBState.scratch stExC1 stExC10 [] rfl rfl
